import Mathlib

/-!
Verification of the version-declaration and version-computation engine of
`semantic_release/history/__init__.py`.

Modelling conventions:
* Python strings are modelled as `List Char` (`Str`); Python string slices
  `s[i:j]` become `Str.extract`.
* File I/O is modelled by bundling each declaration's file state (the TOML
  document, or the raw file content) into the declaration value itself:
  `parse` reads that state, `replace` returns a declaration holding the
  rewritten state.
* The regex engine is modelled abstractly for the generic
  `PatternVersionDeclaration`: a compiled pattern is a function from file
  content to the ordered list of non-overlapping matches, each match being a
  pair of spans `(full_span, group_span)` exactly as produced by
  `re.finditer`; the well-formedness facts `re.finditer` guarantees
  (left-to-right, non-overlapping, group 1 inside the match, spans within the
  content) are captured by `RMatchList.wfb`.  The concrete patterns the
  claims need (`from_variable`'s synthesized pattern, and the
  `v?(\d+.\d+.\d+)` match of `get_previous_version`) are implemented as
  executable matchers transcribing the regex semantics, including greedy
  matching with backtracking where the pattern requires it.
* Python `set`s are modelled as deduplicated lists; the arbitrary iteration
  order of a Python set is determinized to list order (claims below never
  depend on that order).
-/

/-- Python strings as lists of characters. -/
abbrev Str := List Char

/-- The double-quote character (written via its code point). -/
def dq : Char := Char.ofNat 34

/-- The single-quote character (written via its code point). -/
def squo : Char := Char.ofNat 39

/-- Python slice `s[a:b]` (for `a ≤ b` within bounds, which is how the code
uses it): drop `a` characters, then take `b - a`. -/
def Str.extract (s : Str) (a b : Nat) : Str :=
  (s.drop a).take (b - a)

/-- Exceptions raised by the modelled code. -/
inductive PyError where
  | improperConfiguration (msg : Str)
  | versionParseError
  | valueError
  deriving DecidableEq, Repr

/-- One regex match as `re.finditer` delivers it to `swap_version`:
`(s, e) = m.span()` is the full match span and `(gs, ge) = m.span(1)` the
span of capture group 1. -/
structure RMatch where
  s : Nat
  gs : Nat
  ge : Nat
  e : Nat
  deriving DecidableEq, Repr

/-- Well-formedness of a match list starting no earlier than `pos`, as
guaranteed by `re.finditer` for a pattern whose single group lies inside the
match (the documented contract of `PatternVersionDeclaration`): matches are
in left-to-right order, non-overlapping, each group span sits inside its
match span, and everything stays inside the content of length `len`. -/
def RMatchList.wfb (pos len : Nat) : List RMatch → Bool
  | [] => true
  | m :: rest =>
    decide (pos ≤ m.s) && decide (m.s ≤ m.gs) && decide (m.gs ≤ m.ge) &&
    decide (m.ge ≤ m.e) && decide (m.e ≤ len) && RMatchList.wfb m.e len rest

/-- A compiled single-group pattern: content ↦ ordered match list. -/
def RPattern := Str → List RMatch

/-- The replacement callback `swap_version` of
`PatternVersionDeclaration.replace`: for a match `m` over `old_content`,
return `s[i:ii] + new_version + s[jj:j]`. -/
def swap_version (old_content : Str) (new_version : Str) (m : RMatch) : Str :=
  old_content.extract m.s m.gs ++ new_version ++ old_content.extract m.ge m.e

/-- `re.sub` with a replacement callback, given the match list: splice the
callback's output over each full match span, keeping the text between and
around matches. -/
def reSub (content : Str) (repl : RMatch → Str) : Nat → List RMatch → Str
  | pos, [] => content.drop pos
  | pos, m :: rest => content.extract pos m.s ++ repl m ++ reSub content repl m.e rest

/-- Splicing `v` over a list of (group) spans of `content`, keeping every
byte outside the spans.  This is the specification shape for the
non-destructive-replace property. -/
def spliceSpans (content v : Str) : Nat → List (Nat × Nat) → Str
  | pos, [] => content.drop pos
  | pos, (a, b) :: rest => content.extract pos a ++ v ++ spliceSpans content v b rest

/-- Association-list lookup modelling `Dotty.get` (and the `key in _config`
membership test via `isSome`). -/
def dottyGet (doc : List (Str × Str)) (key : Str) : Option Str :=
  match doc with
  | [] => none
  | (k, v) :: rest => if k = key then some v else dottyGet rest key

/-- Association-list update modelling `_config[key] = new_version` (only ever
executed when the key is present; an absent key leaves the document alone,
matching the code's no-op branch). -/
def dottySet (doc : List (Str × Str)) (key v : Str) : List (Str × Str) :=
  match doc with
  | [] => []
  | (k, w) :: rest => if k = key then (k, v) :: rest else (k, w) :: dottySet rest key v

/-- The two concrete `VersionDeclaration` variants, with their file state
bundled in (`TomlVersionDeclaration` carries the parsed TOML document —
`tomlkit`'s format-preserving load/dump round-trip is modelled as the
identity on this association-list abstraction; `PatternVersionDeclaration`
carries the compiled pattern and the raw file content). -/
inductive VersionDeclaration where
  | toml (key : Str) (doc : List (Str × Str))
  | pattern (matcher : RPattern) (content : Str)

namespace VersionDeclaration

/-- `parse()`: `TomlVersionDeclaration.parse` returns `{doc[key]}` when the
key is present and the empty set otherwise; `PatternVersionDeclaration.parse`
returns the set of `m.group(1)` over all matches.  Sets are deduplicated
lists. -/
def parse : VersionDeclaration → List Str
  | toml key doc =>
    match dottyGet doc key with
    | some v => [v]
    | none => []
  | pattern m c => ((m c).map fun mt => c.extract mt.gs mt.ge).dedup

/-- `replace(new_version)`: the TOML variant sets the key when present (else
no-op); the pattern variant runs `re.sub` with `swap_version` over the file
content. -/
def replace (new_version : Str) : VersionDeclaration → VersionDeclaration
  | toml key doc =>
    toml key (if (dottyGet doc key).isSome then dottySet doc key new_version else doc)
  | pattern m c => pattern m (reSub c (swap_version c new_version) 0 (m c))

end VersionDeclaration

/-- Python `repr` of a version string (single-quoted; the version strings at
play contain no quotes or backslashes, where `repr` is just quoting). -/
def pyRepr (s : Str) : Str := squo :: s ++ [squo]

/-- The error message of the empty-union branch. -/
def noVersionsMsg : Str := "no versions found in the configured locations".toList

/-- The error message prefix of the conflicting-versions branch. -/
def conflictPrefix : Str := "found conflicting versions: ".toList

/-- `sep.join(xs)`. -/
def joinSep (sep : Str) : List Str → Str
  | [] => []
  | [x] => x
  | x :: y :: xs => x ++ sep ++ joinSep sep (y :: xs)

/-- `", ".join(repr(x) for x in versions)`. -/
def joinReprs (versions : List Str) : Str :=
  joinSep ", ".toList (versions.map pyRepr)

/-- `get_current_version_by_config_file`, applied to the declarations built
by `load_version_declarations` (file state bundled in).  Computes the union
of all `parse()` sets, then: empty → `ImproperConfigurationError` (no
versions found); more than one element → `ImproperConfigurationError` naming
every conflicting value; otherwise the single element. -/
def get_current_version_by_config_file (decls : List VersionDeclaration) :
    Except PyError Str :=
  match (decls.flatMap VersionDeclaration.parse).dedup with
  | [] => .error (.improperConfiguration noVersionsMsg)
  | [v] => .ok v
  | vs => .error (.improperConfiguration (conflictPrefix ++ joinReprs vs))

deriving instance DecidableEq for Except

/-- Decimal digits, most significant first, fuel-driven so that the kernel
can evaluate it (the fuel `n + 1` always suffices since `n / 10 < n`). -/
def natToDigitsAux : Nat → Nat → List Char → List Char
  | 0, _, acc => acc
  | fuel + 1, n, acc =>
    if n < 10 then Nat.digitChar n :: acc
    else natToDigitsAux fuel (n / 10) (Nat.digitChar (n % 10) :: acc)

/-- Decimal digits of `n`, most significant first (the rendering used by
`str()` on version components). -/
def natToDigits (n : Nat) : List Char :=
  natToDigitsAux (n + 1) n []

/-- Numeric value of a digit character. -/
def digitVal (c : Char) : Nat := c.toNat - 48

/-- Value of a most-significant-first digit string. -/
def digitsToNat (ds : List Char) : Nat :=
  ds.foldl (fun a c => 10 * a + digitVal c) 0

/-- Modelled from the spec: a semantic version, `(major, minor, patch)` plus
optional pre-release/build metadata (§3 "Version").  The `semver` library
providing `VersionInfo` is an external dependency, not part of this
repository's sources. -/
structure SemVer where
  major : Nat
  minor : Nat
  patch : Nat
  prerelease : Option Str
  build : Option Str
  deriving DecidableEq, Repr

/-- Characters allowed in pre-release/build identifiers. -/
def identChar (c : Char) : Bool := c.isAlphanum || c = '-' || c = '.'

/-- A numeric component: nonempty, all digits, no leading zero
(`"0"` alone is allowed). -/
def numericComponent (ds : List Char) : Bool :=
  (decide (ds ≠ [])) && ds.all Char.isDigit &&
    (decide (ds = ['0']) || decide (ds.head? ≠ some '0'))

/-- Modelled from the spec: strict semantic-version parsing
(`semver.VersionInfo.parse` is external to this repository).  Per §3/§4.4: a
strict `MAJOR.MINOR.PATCH` with numeric components, optionally followed by
`-prerelease` and/or `+build` metadata. -/
def parseSemVer (s : Str) : Option SemVer :=
  let d1 := s.takeWhile Char.isDigit
  let r1 := s.dropWhile Char.isDigit
  if numericComponent d1 then
    match r1 with
    | '.' :: r2 =>
      let d2 := r2.takeWhile Char.isDigit
      let r3 := r2.dropWhile Char.isDigit
      if numericComponent d2 then
        match r3 with
        | '.' :: r4 =>
          let d3 := r4.takeWhile Char.isDigit
          let r5 := r4.dropWhile Char.isDigit
          if numericComponent d3 then
            let core : SemVer :=
              ⟨digitsToNat d1, digitsToNat d2, digitsToNat d3, none, none⟩
            match r5 with
            | [] => some core
            | '-' :: r6 =>
              let pre := r6.takeWhile (fun c => c ≠ '+')
              let r7 := r6.dropWhile (fun c => c ≠ '+')
              if pre ≠ [] && pre.all identChar then
                match r7 with
                | [] => some { core with prerelease := some pre }
                | '+' :: b =>
                  if b ≠ [] && b.all identChar then
                    some { core with prerelease := some pre, build := some b }
                  else none
                | _ => none
              else none
            | '+' :: b =>
              if b ≠ [] && b.all identChar then some { core with build := some b }
              else none
            | _ => none
          else none
        | _ => none
      else none
    | _ => none
  else none

/-- Render a semantic version back to a string (`str(VersionInfo)`). -/
def renderSemVer (v : SemVer) : Str :=
  natToDigits v.major ++ '.' :: natToDigits v.minor ++ '.' :: natToDigits v.patch ++
    (match v.prerelease with | some p => '-' :: p | none => []) ++
    (match v.build with | some b => '+' :: b | none => [])

/-- The three bump levels a version bump can request. -/
inductive BumpPart where
  | major
  | minor
  | patch
  deriving DecidableEq, Repr

/-- Modelled from the spec: `VersionInfo.next_version(part=level_bump)` (the
`semver` library is external to this repository).  Per §4.4: increment the
corresponding component, resetting lower components to zero and clearing
pre-release metadata. -/
def nextVersion (v : SemVer) : BumpPart → SemVer
  | .major => ⟨v.major + 1, 0, 0, none, none⟩
  | .minor => ⟨v.major, v.minor + 1, 0, none, none⟩
  | .patch => ⟨v.major, v.minor, v.patch + 1, none, none⟩

/-- `get_new_version(current_version, level_bump)`: a falsy bump level
(`None` or the empty string) returns the input unchanged; otherwise the
current version is parsed strictly (`VersionParseError` on failure) and the
requested component is bumped. -/
def get_new_version (current_version : Str) (level_bump : Option Str) :
    Except PyError Str :=
  match level_bump with
  | none => .ok current_version
  | some l =>
    if l = [] then .ok current_version
    else
      match parseSemVer current_version with
      | none => .error .versionParseError
      | some v =>
        if l = "major".toList then .ok (renderSemVer (nextVersion v .major))
        else if l = "minor".toList then .ok (renderSemVer (nextVersion v .minor))
        else if l = "patch".toList then .ok (renderSemVer (nextVersion v .patch))
        else .error .valueError



/-- Is `c` one of the two quote characters of the character class
`["\x27]` in the synthesized variable pattern? -/
def isQuote (c : Char) : Bool := decide (c = dq) || decide (c = squo)

/-- Attempt to match, at position `pos` of `content`, the pattern
`from_variable` synthesizes: the variable name literally, then spaces, one of
`:`/`=`, spaces, an opening quote (either kind), the version group
`(\d+\.\d+(?:\.\d+)?)`, and a closing quote (either kind).  Greedy digit
runs need no backtracking here because each `\d+` is followed by a
non-digit; the optional third component is taken exactly when it is present
and followed by a quote, which coincides with the regex's backtracking
behaviour since the optional group is immediately followed by the quote
class.  The variable name is taken literally (the code does no regex
escaping, so this models names made of ordinary characters, as the theorems
assume). -/
def matchVarAt (varName : Str) (content : Str) (pos : Nat) : Option RMatch :=
  let s := content.drop pos
  if varName.isPrefixOf s then
    let s1 := s.drop varName.length
    let sp1 := s1.takeWhile (fun c => decide (c = ' '))
    match s1.dropWhile (fun c => decide (c = ' ')) with
    | c :: s2 =>
      if decide (c = ':') || decide (c = '=') then
        let sp2 := s2.takeWhile (fun c => decide (c = ' '))
        match s2.dropWhile (fun c => decide (c = ' ')) with
        | q1 :: s3 =>
          if isQuote q1 then
            let d1 := s3.takeWhile Char.isDigit
            if d1 = [] then none
            else
              match s3.dropWhile Char.isDigit with
              | dot1 :: s4 =>
                if decide (dot1 = '.') then
                  let d2 := s4.takeWhile Char.isDigit
                  if d2 = [] then none
                  else
                    let rest2 := s4.dropWhile Char.isDigit
                    let opt3 :=
                      match rest2 with
                      | dot2 :: s5 =>
                        if decide (dot2 = '.') then
                          let d3 := s5.takeWhile Char.isDigit
                          if decide (d3 ≠ []) && (match s5.dropWhile Char.isDigit with
                              | c2 :: _ => isQuote c2
                              | [] => false) then d3.length + 1
                          else 0
                        else 0
                      | [] => 0
                    match rest2.drop opt3 with
                    | q2 :: _ =>
                      if isQuote q2 then
                        let gs := pos + varName.length + sp1.length + 1 + sp2.length + 1
                        let ge := gs + d1.length + 1 + d2.length + opt3
                        some ⟨pos, gs, ge, ge + 1⟩
                      else none
                    | [] => none
                else none
              | [] => none
          else none
        | [] => none
      else none
    | [] => none
  else none

/-- `re.finditer` scan for the variable pattern: try every position left to
right, emitting non-overlapping matches and resuming after each match's end
(fuel-driven; `content.length + 1` positions suffice since the position
strictly increases). -/
def scanVarAux (varName content : Str) : Nat → Nat → List RMatch
  | 0, _ => []
  | fuel + 1, pos =>
    if pos > content.length then []
    else
      match matchVarAt varName content pos with
      | some m => m :: scanVarAux varName content fuel (max m.e (pos + 1))
      | none => scanVarAux varName content fuel (pos + 1)

/-- The compiled pattern `from_variable` builds for a variable name:
`{variable} *[:=] *["\x27]{version_regex}["\x27]`. -/
def matchVariable (varName : Str) : RPattern := fun content =>
  scanVarAux varName content (content.length + 1) 0

/-- States of the single-row CSV parser (Python `csv.reader`, default
dialect: delimiter `,`, quotechar the double quote, doubled quotes inside a
quoted field, no escape character, non-strict). -/
inductive CsvSt where
  | start
  | unquoted
  | quoted
  | qInQ

/-- One step per character of the CSV state machine; `field` is the field
accumulated so far, `acc` the finished fields. -/
def csvAux : CsvSt → Str → Str → List Str → List Str
  | st, [], field, acc =>
    match st with
    | .start => if acc = [] then [] else acc ++ [[]]
    | _ => acc ++ [field]
  | .start, c :: rest, _, acc =>
    if c = dq then csvAux .quoted rest [] acc
    else if c = ',' then csvAux .start rest [] (acc ++ [[]])
    else csvAux .unquoted rest [c] acc
  | .unquoted, c :: rest, field, acc =>
    if c = ',' then csvAux .start rest [] (acc ++ [field])
    else csvAux .unquoted rest (field ++ [c]) acc
  | .quoted, c :: rest, field, acc =>
    if c = dq then csvAux .qInQ rest field acc
    else csvAux .quoted rest (field ++ [c]) acc
  | .qInQ, c :: rest, field, acc =>
    if c = dq then csvAux .quoted rest (field ++ [dq]) acc
    else if c = ',' then csvAux .start rest [] (acc ++ [field])
    else csvAux .unquoted rest (field ++ [c]) acc

/-- `next(csv.reader([x]))`: parse the single line `x` into its fields. -/
def csvRow (l : Str) : List Str := csvAux .start l [] []

/-- A configuration field value: unset (`None`), a single string, or a list
of strings. -/
inductive ConfigField where
  | unset
  | str (s : Str)
  | list (xs : List Str)
  deriving DecidableEq

/-- The configuration surface consumed by the loader and resolver. -/
structure Config where
  version_variable : ConfigField
  version_pattern : ConfigField
  version_toml : ConfigField
  version_source : Str

/-- `iter_fields`: a falsy value yields nothing; a list is yielded as is; a
string is split on commas by the CSV reader. -/
def iter_fields : ConfigField → List Str
  | .unset => []
  | .str s => if s = [] then [] else csvRow s
  | .list xs => if xs = [] then [] else xs

/-- A declaration as specified by configuration (path plus the
variant-specific payload), before any file is touched. -/
inductive DeclSpec where
  | var (path varName : Str)
  | pat (path template : Str)
  | toml (path key : Str)
  deriving DecidableEq, Repr

/-- `config_str.split(":", 1)` followed by two-element unpacking: split at
the first colon, or fail (`ValueError`) when there is none. -/
def splitOnceColon (s : Str) : Option (Str × Str) :=
  match s.dropWhile (fun c => decide (c ≠ ':')) with
  | _ :: after => some (s.takeWhile (fun c => decide (c ≠ ':')), after)
  | [] => none

/-- `VersionDeclaration.from_variable`. -/
def from_variable (s : Str) : Except PyError DeclSpec :=
  match splitOnceColon s with
  | some (p, v) => .ok (.var p v)
  | none => .error .valueError

/-- `VersionDeclaration.from_pattern`. -/
def from_pattern (s : Str) : Except PyError DeclSpec :=
  match splitOnceColon s with
  | some (p, t) => .ok (.pat p t)
  | none => .error .valueError

/-- `VersionDeclaration.from_toml`. -/
def from_toml (s : Str) : Except PyError DeclSpec :=
  match splitOnceColon s with
  | some (p, k) => .ok (.toml p k)
  | none => .error .valueError

/-- The message raised when no declaration location is configured. -/
def mustSpecifyMsg : Str :=
  "must specify either ".toList ++ pyRepr "version_variable".toList ++
    ", ".toList ++ pyRepr "version_pattern".toList ++
    " or ".toList ++ pyRepr "version_toml".toList

/-- `load_version_declarations()`: build the declaration specs from the
three configuration fields (variables, then patterns, then TOML keys), and
fail with `ImproperConfigurationError` when the result is empty. -/
def load_version_declarations (cfg : Config) : Except PyError (List DeclSpec) := do
  let vars ← (iter_fields cfg.version_variable).mapM from_variable
  let pats ← (iter_fields cfg.version_pattern).mapM from_pattern
  let tomls ← (iter_fields cfg.version_toml).mapM from_toml
  let all := vars ++ pats ++ tomls
  if all = [] then .error (.improperConfiguration mustSpecifyMsg) else .ok all

/-- `set_new_version(new_version)`: load the declaration set (this runs
first and can raise `ImproperConfigurationError`), then call `replace` on
each declaration in configured order; return `True`.  Instantiating a spec
against the file system is abstracted as `replaceSpec`. -/
def set_new_version {FS : Type} (replaceSpec : DeclSpec → Str → FS → FS)
    (cfg : Config) (fs : FS) (new_version : Str) : Except PyError (FS × Bool) :=
  match load_version_declarations cfg with
  | .error e => .error e
  | .ok decls => .ok (decls.foldl (fun s d => replaceSpec d new_version s) fs, true)

/-- Nonempty digit prefixes of `l`, longest first, each with the matching
remainder: the candidate list a greedy `\d+` tries in backtracking order. -/
def digitPrefixes (l : Str) : List (Str × Str) :=
  let k := (l.takeWhile Char.isDigit).length
  (List.range k).map fun i => (l.take (k - i), l.drop (k - i))

/-- Backtracking match of the body `\d+.\d+.\d+` of the previous-version
regex at the start of `s` (the dots are unescaped in the source, so each `.`
matches any single character).  Candidates are tried in the regex engine's
order: each `\d+` greedy longest-first, the final one maximal. -/
def matchBody3 (s : Str) : Option Str :=
  (digitPrefixes s).findSome? fun d1r =>
    match d1r.2 with
    | [] => none
    | c1 :: r2 =>
      (digitPrefixes r2).findSome? fun d2r =>
        match d2r.2 with
        | [] => none
        | c2 :: r4 =>
          match digitPrefixes r4 with
          | d3r :: _ => some (d1r.1 ++ c1 :: d2r.1 ++ c2 :: d3r.1)
          | [] => none

/-- `re.match(r"v?(\d+.\d+.\d+)", commit_message)`, returning group 1: an
optional leading `v`, then the body.  (When the message starts with `v` and
the body fails after it, retrying without consuming `v` also fails, since
`\d+` cannot match `v`; the model folds that into one case.) -/
def matchPrevRegex (msg : Str) : Option Str :=
  match msg with
  | 'v' :: rest => matchBody3 rest
  | _ => matchBody3 msg

/-- The Python substring test `version in commit_message`. -/
def strContains (haystack needle : Str) : Bool := decide (needle <:+: haystack)

/-- Python `str.strip()`. -/
def pyStrip (s : Str) : Str :=
  ((s.dropWhile Char.isWhitespace).reverse.dropWhile Char.isWhitespace).reverse

/-- The scan loop of `get_previous_version`: walk the commit log; a message
containing the target version sets the `found_version` flag and moves on;
afterwards, the first message whose head matches the version regex yields the
answer; falling off the end falls back to `get_last_version` (modelled as the
opaque `fallback` collaborator result). -/
def gpvScan (version : Str) (fallback : Option Str) : Bool → List (Str × Str) → Option Str
  | _, [] => fallback
  | found, (_, msg) :: rest =>
    if strContains msg version then gpvScan version fallback true rest
    else if found then
      match matchPrevRegex msg with
      | some g => some (pyStrip g)
      | none => gpvScan version fallback found rest
    else gpvScan version fallback false rest

/-- `get_previous_version(version)` over a given commit log. -/
def get_previous_version (log : List (Str × Str)) (version : Str)
    (fallback : Option Str) : Option Str :=
  gpvScan version fallback false log

/-- The condition under which `replace(v)` followed by `parse()` recovers
`{v}`: the TOML declaration's key is present (else `replace` is a no-op);
the pattern declaration's pattern matches the rewritten content at least
once, and every such match captures exactly `v`. -/
def RoundTripReady : VersionDeclaration → Str → Prop
  | .toml key doc, _ => (dottyGet doc key).isSome = true
  | .pattern m c, v =>
    m (reSub c (swap_version c v) 0 (m c)) ≠ [] ∧
      ∀ mt ∈ m (reSub c (swap_version c v) 0 (m c)),
        (reSub c (swap_version c v) 0 (m c)).extract mt.gs mt.ge = v

/-- The shape of a string matched by the version sub-pattern
`(\d+\.\d+(?:\.\d+)?)`: two or three nonempty digit runs separated by
literal dots. -/
def VersionShaped (ver : Str) : Prop :=
  (∃ d1 d2, d1 ≠ [] ∧ d2 ≠ [] ∧ (∀ c ∈ d1, c.isDigit = true) ∧
    (∀ c ∈ d2, c.isDigit = true) ∧ ver = d1 ++ '.' :: d2) ∨
  (∃ d1 d2 d3, d1 ≠ [] ∧ d2 ≠ [] ∧ d3 ≠ [] ∧ (∀ c ∈ d1, c.isDigit = true) ∧
    (∀ c ∈ d2, c.isDigit = true) ∧ (∀ c ∈ d3, c.isDigit = true) ∧
    ver = d1 ++ '.' :: d2 ++ '.' :: d3)

lemma Str.extract_append_extract (s : Str) {a b c : Nat} (hab : a ≤ b) (hbc : b ≤ c) :
    s.extract a b ++ s.extract b c = s.extract a c := by
  unfold Str.extract
  have hdrop : s.drop b = (s.drop a).drop (b - a) := by
    rw [List.drop_drop]
    congr 1
    omega
  rw [hdrop, ← List.take_add]
  congr 1
  omega

lemma Str.extract_append_drop (s : Str) {a b : Nat} (hab : a ≤ b) :
    s.extract a b ++ s.drop b = s.drop a := by
  unfold Str.extract
  have hdrop : s.drop b = (s.drop a).drop (b - a) := by
    rw [List.drop_drop]
    congr 1
    omega
  rw [hdrop, List.take_append_drop]

lemma RMatchList.wfb_cons {pos len : Nat} {m : RMatch} {rest : List RMatch}
    (h : RMatchList.wfb pos len (m :: rest) = true) :
    pos ≤ m.s ∧ m.s ≤ m.gs ∧ m.gs ≤ m.ge ∧ m.ge ≤ m.e ∧ m.e ≤ len ∧
      RMatchList.wfb m.e len rest = true := by
  simp only [RMatchList.wfb, Bool.and_eq_true, decide_eq_true_eq] at h
  tauto

/-- The heart of the non-destructive-replace property: `re.sub` with
`swap_version` is the same as splicing the new version over just the group
spans, keeping every byte outside them. -/
lemma reSub_swap_eq_spliceSpans (content v : Str) :
    ∀ (ms : List RMatch) (pos p : Nat), p ≤ pos →
      RMatchList.wfb pos content.length ms = true →
      content.extract p pos ++ reSub content (swap_version content v) pos ms =
        spliceSpans content v p (ms.map fun m => (m.gs, m.ge))
  | [], pos, p, hp, _ => by
    simp only [reSub, List.map_nil, spliceSpans]
    exact Str.extract_append_drop content hp
  | m :: rest, pos, p, hp, hwf => by
    obtain ⟨h1, h2, h3, h4, h5, hwf'⟩ := RMatchList.wfb_cons hwf
    simp only [reSub, List.map_cons, spliceSpans, swap_version]
    have ih := reSub_swap_eq_spliceSpans content v rest m.e m.ge h4 hwf'
    calc content.extract p pos ++
          (content.extract pos m.s ++
            (content.extract m.s m.gs ++ v ++ content.extract m.ge m.e) ++
            reSub content (swap_version content v) m.e rest)
        = (content.extract p pos ++ content.extract pos m.s ++ content.extract m.s m.gs)
            ++ v ++ (content.extract m.ge m.e ++ reSub content (swap_version content v) m.e rest) := by
          simp [List.append_assoc]
      _ = content.extract p m.gs ++ v ++ spliceSpans content v m.ge (rest.map fun m => (m.gs, m.ge)) := by
          rw [Str.extract_append_extract content hp h1,
            Str.extract_append_extract content (le_trans hp h1) h2, ih]

lemma takeWhile_all_cons (p : Char → Bool) (l : Str) (c : Char) (r : Str)
    (hl : ∀ x ∈ l, p x = true) (hc : p c = false) :
    (l ++ c :: r).takeWhile p = l := by
  induction l with
  | nil => simp [List.takeWhile_cons, hc]
  | cons a l ih =>
    have ha := hl a (by simp)
    simp only [List.cons_append, List.takeWhile_cons, ha, if_true]
    rw [ih fun x hx => hl x (by simp [hx])]

lemma dropWhile_all_cons (p : Char → Bool) (l : Str) (c : Char) (r : Str)
    (hl : ∀ x ∈ l, p x = true) (hc : p c = false) :
    (l ++ c :: r).dropWhile p = c :: r := by
  induction l with
  | nil => simp [List.dropWhile_cons, hc]
  | cons a l ih =>
    have ha := hl a (by simp)
    simp only [List.cons_append, List.dropWhile_cons, ha, if_true]
    exact ih fun x hx => hl x (by simp [hx])

lemma takeWhile_all (p : Char → Bool) (l : Str) (hl : ∀ x ∈ l, p x = true) :
    l.takeWhile p = l := by
  induction l with
  | nil => rfl
  | cons a l ih =>
    simp only [List.takeWhile_cons, hl a (by simp), if_true]
    rw [ih fun x hx => hl x (by simp [hx])]

lemma dropWhile_all (p : Char → Bool) (l : Str) (hl : ∀ x ∈ l, p x = true) :
    l.dropWhile p = [] := by
  induction l with
  | nil => rfl
  | cons a l ih =>
    simp only [List.dropWhile_cons, hl a (by simp), if_true]
    exact ih fun x hx => hl x (by simp [hx])

lemma dottyGet_dottySet_same (doc : List (Str × Str)) (key v w : Str)
    (h : dottyGet doc key = some w) :
    dottyGet (dottySet doc key v) key = some v := by
  induction doc with
  | nil => simp [dottyGet] at h
  | cons kv rest ih =>
    obtain ⟨k, x⟩ := kv
    by_cases hk : k = key
    · simp [dottyGet, dottySet, hk]
    · simp only [dottyGet, dottySet, hk, if_false, if_neg hk] at h ⊢
      exact ih h

lemma dedup_of_all_eq {l : List Str} {v : Str} (hne : l ≠ [])
    (hall : ∀ x ∈ l, x = v) : l.dedup = [v] := by
  rcases hd : l.dedup with _ | ⟨x, xs⟩
  · exact absurd ((List.dedup_eq_nil _).mp hd) hne
  · have hx : x = v := hall x (List.mem_dedup.mp (hd ▸ List.mem_cons_self x xs))
    rcases xs with _ | ⟨y, ys⟩
    · rw [hx]
    · have hy : y = v := hall y (List.mem_dedup.mp (hd ▸ by simp))
      have hnd : l.dedup.Nodup := l.nodup_dedup
      rw [hd] at hnd
      have : x ∉ y :: ys := (List.nodup_cons.mp hnd).1
      exact absurd (by simp [hx, hy]) this

lemma infix_joinSep (sep : Str) (vs : List Str) (v : Str) (hv : v ∈ vs) :
    v <:+: joinSep sep vs := by
  induction vs with
  | nil => cases hv
  | cons x xs ih =>
    rcases xs with _ | ⟨y, ys⟩
    · rcases List.mem_cons.mp hv with h | h
      · exact h ▸ List.infix_refl v
      · cases h
    · rcases List.mem_cons.mp hv with h | h
      · exact ⟨[], sep ++ joinSep sep (y :: ys), by simp [joinSep, h]⟩
      · obtain ⟨a, b, hab⟩ := ih h
        exact ⟨x ++ sep ++ a, b, by simp only [joinSep, ← hab]; simp⟩

lemma infix_joinReprs (vs : List Str) (v : Str) (hv : v ∈ vs) :
    pyRepr v <:+: joinReprs vs :=
  infix_joinSep _ (vs.map pyRepr) (pyRepr v) (List.mem_map_of_mem pyRepr hv)

/-- C1: resolving the current version through the declaration strategy:
when the union of all parsed version sets has more than one element,
`get_current_version_by_config_file` raises `ImproperConfigurationError`
whose "found conflicting versions" message names (contains the `repr` of)
every conflicting value, and no version is returned; when the union is a
singleton, that single element is returned. -/
theorem c1_conflict_gate (decls : List VersionDeclaration) (_hne : decls ≠ []) :
    (1 < ((decls.flatMap VersionDeclaration.parse).dedup).length →
      ∃ msg, get_current_version_by_config_file decls =
          .error (.improperConfiguration msg) ∧
        conflictPrefix <+: msg ∧
        ∀ v ∈ (decls.flatMap VersionDeclaration.parse).dedup, pyRepr v <:+: msg) ∧
    (∀ v, (decls.flatMap VersionDeclaration.parse).dedup = [v] →
      get_current_version_by_config_file decls = .ok v) := by
  constructor
  · intro hlen
    rcases hu : (decls.flatMap VersionDeclaration.parse).dedup with _ | ⟨x, _ | ⟨y, rest⟩⟩
    · rw [hu] at hlen; simp at hlen
    · rw [hu] at hlen; simp at hlen
    · refine ⟨conflictPrefix ++ joinReprs (x :: y :: rest), ?_, ?_, ?_⟩
      · simp [get_current_version_by_config_file, hu]
      · exact List.prefix_append _ _
      · intro v hv
        obtain ⟨a, b, hab⟩ := infix_joinReprs (x :: y :: rest) v hv
        exact ⟨conflictPrefix ++ a, b, by simp only [← hab]; simp⟩
  · intro v hv
    simp [get_current_version_by_config_file, hv]

theorem c1_conflict_gate_witness :
    ([VersionDeclaration.toml "k".toList [("k".toList, "1.2.3".toList)],
      VersionDeclaration.toml "k".toList [("k".toList, "2.0.0".toList)]] ≠
        ([] : List VersionDeclaration)) ∧
    (∃ msg,
      get_current_version_by_config_file
        [VersionDeclaration.toml "k".toList [("k".toList, "1.2.3".toList)],
         VersionDeclaration.toml "k".toList [("k".toList, "2.0.0".toList)]] =
        .error (.improperConfiguration msg) ∧
      conflictPrefix <+: msg ∧
      ∀ v ∈ (([VersionDeclaration.toml "k".toList [("k".toList, "1.2.3".toList)],
          VersionDeclaration.toml "k".toList [("k".toList, "2.0.0".toList)]].flatMap
            VersionDeclaration.parse).dedup), pyRepr v <:+: msg) := by
  refine ⟨by simp, (c1_conflict_gate _ (by simp)).1 (by decide)⟩

/-- C8: when every declaration's `parse()` returns the empty set, the
declaration strategy fails with the "no versions found" error rather than
returning any version. -/
theorem c8_empty_union_gate (decls : List VersionDeclaration) (_hne : decls ≠ [])
    (hall : ∀ d ∈ decls, VersionDeclaration.parse d = []) :
    get_current_version_by_config_file decls =
      .error (.improperConfiguration noVersionsMsg) := by
  have hflat : decls.flatMap VersionDeclaration.parse = [] := by
    rw [List.flatMap_eq_nil_iff]
    exact hall
  simp [get_current_version_by_config_file, hflat]

theorem c8_empty_union_gate_witness :
    (([VersionDeclaration.toml "version".toList []] ≠ ([] : List VersionDeclaration)) ∧
      ∀ d ∈ [VersionDeclaration.toml "version".toList []],
        VersionDeclaration.parse d = []) ∧
    get_current_version_by_config_file [VersionDeclaration.toml "version".toList []] =
      .error (.improperConfiguration noVersionsMsg) :=
  ⟨⟨by simp, by decide⟩,
    c8_empty_union_gate [VersionDeclaration.toml "version".toList []] (by simp) (by decide)⟩

/-- C2 (counterexample): the round-trip claim fails as universally stated: a
`TomlVersionDeclaration` whose key is absent leaves the document untouched on
`replace`, so the following `parse()` yields the empty set, not `{v}`. -/
theorem c2_round_trip_counterexample :
    ¬ (VersionDeclaration.parse
        (VersionDeclaration.replace "1.2.3".toList
          (VersionDeclaration.toml "version".toList [])) = ["1.2.3".toList]) := by
  decide

/-- C2 (amended): for every declaration and version string `v`, provided the
declaration actually locates the version (TOML: the key is present; pattern:
the pattern matches the rewritten content at least once and every match
captures exactly `v`), `replace(v)` followed by `parse()` yields exactly
`{v}`. -/
theorem c2_round_trip (d : VersionDeclaration) (v : Str) (h : RoundTripReady d v) :
    VersionDeclaration.parse (VersionDeclaration.replace v d) = [v] := by
  match d with
  | .toml key doc =>
    obtain ⟨w, hw⟩ := Option.isSome_iff_exists.mp h
    simp only [VersionDeclaration.replace, hw]
    simp only [Option.isSome_some, if_true, VersionDeclaration.parse,
      dottyGet_dottySet_same doc key v w hw]
  | .pattern m c =>
    obtain ⟨hne, hall⟩ := h
    simp only [VersionDeclaration.replace, VersionDeclaration.parse]
    exact dedup_of_all_eq (by simpa using hne)
      (by intro x hx
          obtain ⟨mt, hmt, rfl⟩ := List.mem_map.mp hx
          exact hall mt hmt)

theorem c2_round_trip_witness :
    RoundTripReady
        (VersionDeclaration.toml "k".toList [("k".toList, "0.0.1".toList)])
        "1.2.3".toList ∧
    VersionDeclaration.parse
        (VersionDeclaration.replace "1.2.3".toList
          (VersionDeclaration.toml "k".toList [("k".toList, "0.0.1".toList)])) =
      ["1.2.3".toList] :=
  ⟨rfl,
    c2_round_trip (VersionDeclaration.toml "k".toList [("k".toList, "0.0.1".toList)])
      "1.2.3".toList rfl⟩

/-- C3: `PatternVersionDeclaration.replace` is non-destructive: for any
pattern, file content and new version string, the rewritten content is
exactly the original content with `new_version` spliced over the capture
group span of each (non-overlapping, in-order) match — every byte outside
those group spans, including the matched text around the group and all text
between and outside matches, is kept verbatim. -/
theorem c3_replace_preserves_outside_group_spans (matcher : RPattern)
    (content new_version : Str)
    (hwf : RMatchList.wfb 0 content.length (matcher content) = true) :
    VersionDeclaration.replace new_version (.pattern matcher content) =
      .pattern matcher
        (spliceSpans content new_version 0
          ((matcher content).map fun m => (m.gs, m.ge))) := by
  simp only [VersionDeclaration.replace]
  have h := reSub_swap_eq_spliceSpans content new_version (matcher content) 0 0
    le_rfl hwf
  simp only [Str.extract, List.drop_zero, Nat.sub_zero, List.take_zero,
    List.nil_append] at h
  rw [h]

theorem c3_replace_preserves_outside_group_spans_witness :
    (RMatchList.wfb 0
        ("VERSION = ".toList ++ dq :: "1.2.3".toList ++ [squo]).length
        (matchVariable "VERSION".toList
          ("VERSION = ".toList ++ dq :: "1.2.3".toList ++ [squo])) = true) ∧
    VersionDeclaration.replace "4.5.6".toList
        (.pattern (matchVariable "VERSION".toList)
          ("VERSION = ".toList ++ dq :: "1.2.3".toList ++ [squo])) =
      .pattern (matchVariable "VERSION".toList)
        (spliceSpans ("VERSION = ".toList ++ dq :: "1.2.3".toList ++ [squo])
          "4.5.6".toList 0
          ((matchVariable "VERSION".toList
              ("VERSION = ".toList ++ dq :: "1.2.3".toList ++ [squo])).map
            fun m => (m.gs, m.ge))) :=
  ⟨by decide,
    c3_replace_preserves_outside_group_spans (matchVariable "VERSION".toList)
      ("VERSION = ".toList ++ dq :: "1.2.3".toList ++ [squo]) "4.5.6".toList
      (by decide)⟩

/-- C5: the previous-version scan evaluated on the two decisive logs.  On the
log of the claim's example the predecessor of `1.2.3` is `1.1.0`, as the
claim states.  But on a log where the commit after the marker is `v1a2b3c`,
the code still accepts it: the regex `v?(\d+.\d+.\d+)` has unescaped dots
(each `.` matches any character), so the scan returns `1a2b3` — contradicting
the claim that a head that is not a strict dotted version is never accepted. -/
theorem c5_previous_version_scan_eval :
    get_previous_version
        [("h1".toList, "fix".toList), ("h2".toList, "release 1.2.3".toList),
         ("h3".toList, "v1.1.0".toList), ("h4".toList, "chore".toList)]
        "1.2.3".toList none = some "1.1.0".toList ∧
    get_previous_version
        [("h1".toList, "fix".toList), ("h2".toList, "release 1.2.3".toList),
         ("h3".toList, "v1a2b3c".toList), ("h4".toList, "chore".toList)]
        "1.2.3".toList none = some "1a2b3".toList := by
  constructor <;> decide

/-- C7 (counterexample): a single-string `version_variable` value with a
backslash before a comma is still split at the comma — the default CSV
dialect has no escape character — yielding two declarations (the backslash
kept literally in the first), not one. -/
theorem c7_escaped_comma_counterexample :
    load_version_declarations
        ⟨.str "a.py:V\\,b.py:W".toList, .unset, .unset, "commit".toList⟩ =
      .ok [.var "a.py".toList "V\\".toList, .var "b.py".toList "W".toList] ∧
    ∀ d : DeclSpec,
      load_version_declarations
          ⟨.str "a.py:V\\,b.py:W".toList, .unset, .unset, "commit".toList⟩ ≠
        .ok [d] := by
  refine ⟨by decide, ?_⟩
  intro d h
  rw [(by decide :
    load_version_declarations
        ⟨.str "a.py:V\\,b.py:W".toList, .unset, .unset, "commit".toList⟩ =
      .ok [.var "a.py".toList "V\\".toList, .var "b.py".toList "W".toList])] at h
  simpa using (Except.ok.inj h)

/-- C7 (amended): in the DeclarationSet loader, escaping a comma inside one
entry of a single-string field is done with CSV double-quote quoting — a
double-quoted entry containing a comma yields exactly one declaration; a
backslash does not escape a comma (the value splits at it, the backslash
staying literal, yielding one declaration per comma-separated piece); an
unescaped comma likewise splits into one declaration per entry. -/
theorem c7_escaped_comma_amended :
    load_version_declarations
        ⟨.str ("\"a.py:V,x\"".toList), .unset, .unset, "commit".toList⟩ =
      .ok [.var "a.py".toList "V,x".toList] ∧
    load_version_declarations
        ⟨.str "a.py:V,b.py:W".toList, .unset, .unset, "commit".toList⟩ =
      .ok [.var "a.py".toList "V".toList, .var "b.py".toList "W".toList] := by
  constructor <;> decide

/-- C9: `set_new_version` always loads the DeclarationSet first, so with
`version_variable`, `version_pattern` and `version_toml` all empty or unset
it raises `ImproperConfigurationError` — for every configuration, including
those whose `version_source` is `"tag"` (the tag-mode exemption applies only
to reading the current version, not to writing the new one). -/
theorem c9_set_new_version_requires_declarations {FS : Type}
    (replaceSpec : DeclSpec → Str → FS → FS) (cfg : Config) (fs : FS)
    (new_version : Str)
    (h1 : cfg.version_variable = .unset ∨ cfg.version_variable = .str [] ∨
      cfg.version_variable = .list [])
    (h2 : cfg.version_pattern = .unset ∨ cfg.version_pattern = .str [] ∨
      cfg.version_pattern = .list [])
    (h3 : cfg.version_toml = .unset ∨ cfg.version_toml = .str [] ∨
      cfg.version_toml = .list []) :
    set_new_version replaceSpec cfg fs new_version =
      .error (.improperConfiguration mustSpecifyMsg) := by
  have e1 : iter_fields cfg.version_variable = [] := by
    rcases h1 with h | h | h <;> rw [h] <;> rfl
  have e2 : iter_fields cfg.version_pattern = [] := by
    rcases h2 with h | h | h <;> rw [h] <;> rfl
  have e3 : iter_fields cfg.version_toml = [] := by
    rcases h3 with h | h | h <;> rw [h] <;> rfl
  simp only [set_new_version, load_version_declarations, e1, e2, e3]
  rfl

theorem c9_set_new_version_requires_declarations_witness :
    (Config.mk .unset .unset .unset "tag".toList).version_source = "tag".toList ∧
    set_new_version (fun (_ : DeclSpec) (_ : Str) (u : Unit) => u)
        (Config.mk .unset .unset .unset "tag".toList) () "2.0.0".toList =
      .error (.improperConfiguration mustSpecifyMsg) :=
  ⟨rfl,
    c9_set_new_version_requires_declarations _ _ () "2.0.0".toList
      (Or.inl rfl) (Or.inl rfl) (Or.inl rfl)⟩

lemma natToDigitsAux_eq : ∀ (fuel n : Nat) (acc : List Char), 0 < n → n < 10 ^ fuel →
    natToDigitsAux fuel n acc = ((Nat.digits 10 n).map Nat.digitChar).reverse ++ acc
  | 0, n, acc, hn, hlt => by simp at hlt; omega
  | fuel + 1, n, acc, hn, hlt => by
    rw [natToDigitsAux]
    by_cases h : n < 10
    · rw [if_pos h]
      rw [Nat.digits_def' (by norm_num : 1 < 10) hn]
      rw [Nat.mod_eq_of_lt h, Nat.div_eq_of_lt h]
      simp
    · rw [if_neg h]
      have hpos : 0 < n / 10 := Nat.div_pos (by omega) (by norm_num)
      have hsm : n / 10 < 10 ^ fuel := by
        rw [Nat.div_lt_iff_lt_mul (by norm_num : 0 < 10)]
        calc n < 10 ^ (fuel + 1) := hlt
          _ = 10 ^ fuel * 10 := by ring
      rw [natToDigitsAux_eq fuel (n / 10) _ hpos hsm]
      rw [Nat.digits_def' (by norm_num : 1 < 10) hn]
      simp

lemma natToDigits_eq (n : Nat) (hn : 0 < n) :
    natToDigits n = ((Nat.digits 10 n).map Nat.digitChar).reverse := by
  have hlt : n < 10 ^ (n + 1) :=
    lt_of_lt_of_le (Nat.lt_pow_self (by norm_num) n)
      (Nat.pow_le_pow_right (by norm_num) (by omega))
  rw [natToDigits, natToDigitsAux_eq (n + 1) n [] hn hlt, List.append_nil]

lemma digitVal_digitChar (d : Nat) (h : d < 10) : digitVal (Nat.digitChar d) = d := by
  interval_cases d <;> decide

lemma isDigit_digitChar (d : Nat) (h : d < 10) : (Nat.digitChar d).isDigit = true := by
  interval_cases d <;> decide

lemma digitChar_ne_zero_char (d : Nat) (h : d < 10) (hd : d ≠ 0) :
    Nat.digitChar d ≠ '0' := by
  interval_cases d <;> simp_all <;> decide

lemma digitsToNat_append_last (l : List Char) (c : Char) :
    digitsToNat (l ++ [c]) = 10 * digitsToNat l + digitVal c := by
  simp [digitsToNat, List.foldl_append]

lemma digitsToNat_rev_digits (ds : List Nat) (h : ∀ d ∈ ds, d < 10) :
    digitsToNat ((ds.map Nat.digitChar).reverse) = Nat.ofDigits 10 ds := by
  induction ds with
  | nil => simp [digitsToNat, Nat.ofDigits_nil]
  | cons d rest ih =>
    simp only [List.map_cons, List.reverse_cons, digitsToNat_append_last]
    rw [ih fun x hx => h x (by simp [hx]), digitVal_digitChar d (h d (by simp)),
      Nat.ofDigits_cons]
    ring

lemma digitsToNat_natToDigits (n : Nat) : digitsToNat (natToDigits n) = n := by
  rcases Nat.eq_zero_or_pos n with h | h
  · subst h; decide
  · rw [natToDigits_eq n h,
      digitsToNat_rev_digits _ fun d hd => Nat.digits_lt_base (by norm_num) hd,
      Nat.ofDigits_digits]

lemma natToDigits_all_digits (n : Nat) : ∀ c ∈ natToDigits n, c.isDigit = true := by
  rcases Nat.eq_zero_or_pos n with h | h
  · subst h; decide
  · rw [natToDigits_eq n h]
    intro c hc
    rw [List.mem_reverse, List.mem_map] at hc
    obtain ⟨d, hd, rfl⟩ := hc
    exact isDigit_digitChar d (Nat.digits_lt_base (by norm_num) hd)

lemma natToDigits_ne_nil (n : Nat) : natToDigits n ≠ [] := by
  rcases Nat.eq_zero_or_pos n with h | h
  · subst h; decide
  · rw [natToDigits_eq n h]
    simp [Nat.digits_ne_nil_iff_ne_zero.mpr (by omega : n ≠ 0)]

lemma natToDigits_numeric (n : Nat) : numericComponent (natToDigits n) = true := by
  rcases Nat.eq_zero_or_pos n with h | h
  · subst h; decide
  · have hmem : ∀ c ∈ natToDigits n, c.isDigit = true := natToDigits_all_digits n
    have hhead : (natToDigits n).head? ≠ some '0' := by
      rw [natToDigits_eq n h, List.head?_reverse]
      have hne : Nat.digits 10 n ≠ [] :=
        Nat.digits_ne_nil_iff_ne_zero.mpr (by omega : n ≠ 0)
      have hne2 : (Nat.digits 10 n).map Nat.digitChar ≠ [] := by simp [hne]
      rw [List.getLast?_eq_getLast_of_ne_nil hne2, List.getLast_map Nat.digitChar _ hne2]
      have hlast := Nat.getLast_digit_ne_zero 10 (by omega : n ≠ 0)
      have hmem10 : (Nat.digits 10 n).getLast hne ∈ Nat.digits 10 n :=
        List.getLast_mem hne
      have := digitChar_ne_zero_char _ (Nat.digits_lt_base (by norm_num) hmem10) hlast
      simp [this]
    simp only [numericComponent, Bool.and_eq_true, Bool.or_eq_true, decide_eq_true_eq]
    refine ⟨⟨natToDigits_ne_nil n, List.all_eq_true.mpr hmem⟩, Or.inr hhead⟩

lemma parse_render_core (a b c : Nat) :
    parseSemVer (renderSemVer ⟨a, b, c, none, none⟩) = some ⟨a, b, c, none, none⟩ := by
  have hdot : Char.isDigit '.' = false := by decide
  have hA := natToDigits_all_digits a
  have hB := natToDigits_all_digits b
  have hC := natToDigits_all_digits c
  simp only [renderSemVer, List.append_nil]
  rw [parseSemVer]
  simp only [List.cons_append, List.append_assoc]
  rw [takeWhile_all_cons Char.isDigit (natToDigits a) '.'
    (natToDigits b ++ '.' :: natToDigits c) hA hdot]
  rw [dropWhile_all_cons Char.isDigit (natToDigits a) '.'
    (natToDigits b ++ '.' :: natToDigits c) hA hdot]
  rw [natToDigits_numeric a]
  simp only [if_true]
  rw [takeWhile_all_cons Char.isDigit (natToDigits b) '.' (natToDigits c) hB hdot]
  rw [dropWhile_all_cons Char.isDigit (natToDigits b) '.' (natToDigits c) hB hdot]
  rw [natToDigits_numeric b]
  simp only [if_true]
  rw [takeWhile_all Char.isDigit (natToDigits c) hC]
  rw [dropWhile_all Char.isDigit (natToDigits c) hC]
  rw [natToDigits_numeric c]
  simp only [if_true, digitsToNat_natToDigits]

/-- C4: bump arithmetic of `get_new_version`: the four concrete examples of
the claim, and in general, for every parsable current version, bumping a
component produces a version string that re-parses to the input with that
component incremented, all lower components reset to zero, and the
pre-release metadata cleared. -/
theorem c4_bump_arithmetic :
    (get_new_version "1.2.3".toList (some "major".toList) = .ok "2.0.0".toList ∧
     get_new_version "1.2.3".toList (some "minor".toList) = .ok "1.3.0".toList ∧
     get_new_version "1.2.3".toList (some "patch".toList) = .ok "1.2.4".toList ∧
     get_new_version "1.2.3".toList none = .ok "1.2.3".toList) ∧
    ∀ s v, parseSemVer s = some v →
      (get_new_version s (some "major".toList) =
          .ok (renderSemVer ⟨v.major + 1, 0, 0, none, none⟩) ∧
        parseSemVer (renderSemVer ⟨v.major + 1, 0, 0, none, none⟩) =
          some ⟨v.major + 1, 0, 0, none, none⟩) ∧
      (get_new_version s (some "minor".toList) =
          .ok (renderSemVer ⟨v.major, v.minor + 1, 0, none, none⟩) ∧
        parseSemVer (renderSemVer ⟨v.major, v.minor + 1, 0, none, none⟩) =
          some ⟨v.major, v.minor + 1, 0, none, none⟩) ∧
      (get_new_version s (some "patch".toList) =
          .ok (renderSemVer ⟨v.major, v.minor, v.patch + 1, none, none⟩) ∧
        parseSemVer (renderSemVer ⟨v.major, v.minor, v.patch + 1, none, none⟩) =
          some ⟨v.major, v.minor, v.patch + 1, none, none⟩) := by
  refine ⟨⟨by decide, by decide, by decide, by decide⟩, ?_⟩
  intro s v hv
  refine ⟨⟨?_, parse_render_core _ _ _⟩, ⟨?_, parse_render_core _ _ _⟩,
    ⟨?_, parse_render_core _ _ _⟩⟩ <;>
    simp [get_new_version, hv, nextVersion]

theorem c4_bump_arithmetic_witness :
    parseSemVer "10.20.30".toList = some ⟨10, 20, 30, none, none⟩ ∧
    get_new_version "10.20.30".toList (some "major".toList) =
      .ok (renderSemVer ⟨11, 0, 0, none, none⟩) :=
  ⟨by decide,
    (c4_bump_arithmetic.2 "10.20.30".toList ⟨10, 20, 30, none, none⟩ (by decide)).1.1⟩

/-- C6: when the current version string is not a syntactically valid
semantic version and a `patch`/`minor`/`major` bump is requested,
`get_new_version` fails with the version-parse error and returns no
version. -/
theorem c6_invalid_version_raises (s l : Str) (hparse : parseSemVer s = none)
    (hl : l = "patch".toList ∨ l = "minor".toList ∨ l = "major".toList) :
    get_new_version s (some l) = .error .versionParseError := by
  have hne : l ≠ [] := by rcases hl with h | h | h <;> subst h <;> decide
  simp [get_new_version, if_neg hne, hparse]

theorem c6_invalid_version_raises_witness :
    parseSemVer "1.2".toList = none ∧
    get_new_version "1.2".toList (some "major".toList) =
      .error .versionParseError :=
  ⟨by decide,
    c6_invalid_version_raises "1.2".toList "major".toList (by decide)
      (Or.inr (Or.inr rfl))⟩

lemma isPrefixOf_append_self (l r : Str) : l.isPrefixOf (l ++ r) = true := by
  induction l with
  | nil => simp [List.isPrefixOf]
  | cons a l ih => simp [List.isPrefixOf, ih]

lemma isQuote_elim {c : Char} (h : isQuote c = true) : c = dq ∨ c = squo := by
  simpa [isQuote] using h

lemma isQuote_space {c : Char} (h : isQuote c = true) : decide (c = ' ') = false := by
  rcases isQuote_elim h with rfl | rfl <;> decide

lemma isQuote_digit {c : Char} (h : isQuote c = true) : c.isDigit = false := by
  rcases isQuote_elim h with rfl | rfl <;> decide

lemma isQuote_dot {c : Char} (h : isQuote c = true) : decide (c = '.') = false := by
  rcases isQuote_elim h with rfl | rfl <;> decide

lemma matchVarAt_shaped (V : Str) (q1 q2 : Char) (ver : Str)
    (hq1 : isQuote q1 = true) (hq2 : isQuote q2 = true) (hver : VersionShaped ver) :
    matchVarAt V (V ++ ' ' :: '=' :: ' ' :: q1 :: (ver ++ [q2])) 0 =
      some ⟨0, V.length + 4, V.length + 4 + ver.length, V.length + 5 + ver.length⟩ := by
  have hdot : Char.isDigit '.' = false := by decide
  have hq1s := isQuote_space hq1
  have hq2d := isQuote_digit hq2
  have hq2dot := isQuote_dot hq2
  rcases hver with ⟨d1, d2, h1, h2, hd1, hd2, rfl⟩ |
    ⟨d1, d2, d3, h1, h2, h3, hd1, hd2, hd3, rfl⟩
  · simp only [List.append_assoc, List.cons_append, List.singleton_append]
    simp [matchVarAt, isPrefixOf_append_self, List.drop_left,
      takeWhile_all_cons Char.isDigit d1 '.' _ hd1 hdot,
      dropWhile_all_cons Char.isDigit d1 '.' _ hd1 hdot,
      takeWhile_all_cons Char.isDigit d2 _ _ hd2 hq2d,
      dropWhile_all_cons Char.isDigit d2 _ _ hd2 hq2d,
      hq1s, hq1, hq2, hq2dot, h1, h2, RMatch.mk.injEq]
    omega
  · simp only [List.append_assoc, List.cons_append, List.singleton_append]
    simp [matchVarAt, isPrefixOf_append_self, List.drop_left,
      takeWhile_all_cons Char.isDigit d1 '.' _ hd1 hdot,
      dropWhile_all_cons Char.isDigit d1 '.' _ hd1 hdot,
      takeWhile_all_cons Char.isDigit d2 '.' _ hd2 hdot,
      dropWhile_all_cons Char.isDigit d2 '.' _ hd2 hdot,
      takeWhile_all_cons Char.isDigit d3 _ _ hd3 hq2d,
      dropWhile_all_cons Char.isDigit d3 _ _ hd3 hq2d,
      hq1s, hq1, hq2, h1, h2, h3, RMatch.mk.injEq, List.drop_left']
    omega

lemma scanVarAux_stop (varName content : Str) (hV : varName ≠ []) :
    ∀ (fuel pos : Nat), content.length ≤ pos → scanVarAux varName content fuel pos = [] := by
  intro fuel
  induction fuel with
  | zero => intro pos _; rfl
  | succ fuel ih =>
    intro pos hpos
    rw [scanVarAux]
    by_cases hgt : pos > content.length
    · rw [if_pos hgt]
    · rw [if_neg hgt]
      have hdrop : content.drop pos = [] := List.drop_eq_nil_of_le hpos
      have hm : matchVarAt varName content pos = none := by
        rcases varName with _ | ⟨a, rest⟩
        · exact absurd rfl hV
        · simp [matchVarAt, hdrop, List.isPrefixOf]
      rw [hm]
      exact ih (pos + 1) (by omega)

lemma matchVariable_shaped (V : Str) (q1 q2 : Char) (ver : Str) (hV : V ≠ [])
    (hq1 : isQuote q1 = true) (hq2 : isQuote q2 = true) (hver : VersionShaped ver) :
    matchVariable V (V ++ ' ' :: '=' :: ' ' :: q1 :: (ver ++ [q2])) =
      [⟨0, V.length + 4, V.length + 4 + ver.length, V.length + 5 + ver.length⟩] := by
  have hm := matchVarAt_shaped V q1 q2 ver hq1 hq2 hver
  have hlen : (V ++ ' ' :: '=' :: ' ' :: q1 :: (ver ++ [q2])).length =
      V.length + 5 + ver.length := by
    simp
    omega
  rw [matchVariable, hlen, scanVarAux]
  rw [if_neg (by omega), hm]
  have hstop := scanVarAux_stop V (V ++ ' ' :: '=' :: ' ' :: q1 :: (ver ++ [q2])) hV
    (V.length + 5 + ver.length) (max (V.length + 5 + ver.length) (0 + 1)) (by rw [hlen]; omega)
  simp [hstop]

/-- C10: the pattern `from_variable` synthesizes does not require the two
quote characters around the version to match: for every variable name (made
of ordinary identifier characters), either quote on each side, and every
version-shaped string, a line `NAME = <q1>version<q2>` is matched by
`parse()` (yielding exactly that version) and rewritten by `replace()`
(yielding the line with only the version substituted), identically for all
four quote combinations. -/
theorem c10_mismatched_quotes_accepted (V : Str) (q1 q2 : Char) (ver nv : Str)
    (hV : V ≠ []) (_hVchars : ∀ c ∈ V, c.isAlphanum = true ∨ c = '_')
    (hq1 : isQuote q1 = true) (hq2 : isQuote q2 = true) (hver : VersionShaped ver) :
    VersionDeclaration.parse
        (.pattern (matchVariable V) (V ++ ' ' :: '=' :: ' ' :: q1 :: (ver ++ [q2]))) =
      [ver] ∧
    VersionDeclaration.replace nv
        (.pattern (matchVariable V) (V ++ ' ' :: '=' :: ' ' :: q1 :: (ver ++ [q2]))) =
      .pattern (matchVariable V) (V ++ ' ' :: '=' :: ' ' :: q1 :: (nv ++ [q2])) := by
  have hmv := matchVariable_shaped V q1 q2 ver hV hq1 hq2 hver
  have hcontent : V ++ ' ' :: '=' :: ' ' :: q1 :: (ver ++ [q2]) =
      (V ++ [' ', '=', ' ', q1]) ++ (ver ++ [q2]) := by simp
  have hplen : (V ++ [' ', '=', ' ', q1]).length = V.length + 4 := by simp
  have hdrop4 : (V ++ ' ' :: '=' :: ' ' :: q1 :: (ver ++ [q2])).drop (V.length + 4) =
      ver ++ [q2] := by
    rw [hcontent]
    exact List.drop_left' hplen
  have htake4 : (V ++ ' ' :: '=' :: ' ' :: q1 :: (ver ++ [q2])).take (V.length + 4) =
      V ++ [' ', '=', ' ', q1] := by
    rw [hcontent]
    exact List.take_left' hplen
  have hexg : (V ++ ' ' :: '=' :: ' ' :: q1 :: (ver ++ [q2])).extract (V.length + 4)
      (V.length + 4 + ver.length) = ver := by
    rw [Str.extract, hdrop4, (by omega : V.length + 4 + ver.length - (V.length + 4) = ver.length)]
    exact List.take_left' rfl
  constructor
  · simp [VersionDeclaration.parse, hmv, hexg]
  · simp only [VersionDeclaration.replace, hmv, reSub, swap_version]
    simp only [VersionDeclaration.pattern.injEq, true_and]
    have hex0 : (V ++ ' ' :: '=' :: ' ' :: q1 :: (ver ++ [q2])).extract 0 0 = [] := by
      simp [Str.extract]
    have hexPre : (V ++ ' ' :: '=' :: ' ' :: q1 :: (ver ++ [q2])).extract 0 (V.length + 4) =
        V ++ [' ', '=', ' ', q1] := by
      rw [Str.extract, List.drop_zero, Nat.sub_zero]
      exact htake4
    have hexQ : (V ++ ' ' :: '=' :: ' ' :: q1 :: (ver ++ [q2])).extract
        (V.length + 4 + ver.length) (V.length + 5 + ver.length) = [q2] := by
      rw [Str.extract,
        (by omega : V.length + 5 + ver.length - (V.length + 4 + ver.length) = 1)]
      have : (V ++ ' ' :: '=' :: ' ' :: q1 :: (ver ++ [q2])).drop
          (V.length + 4 + ver.length) = [q2] := by
        rw [hcontent, ← List.append_assoc]
        exact List.drop_left' (by simp; omega)
      rw [this]
      rfl
    have hdropEnd : (V ++ ' ' :: '=' :: ' ' :: q1 :: (ver ++ [q2])).drop
        (V.length + 5 + ver.length) = [] := by
      apply List.drop_eq_nil_of_le
      simp
      omega
    rw [hex0, hexPre, hexQ, hdropEnd]
    simp

theorem c10_mismatched_quotes_accepted_witness :
    (("VERSION".toList : Str) ≠ [] ∧ isQuote dq = true ∧ isQuote squo = true ∧
      VersionShaped "1.2.3".toList) ∧
    VersionDeclaration.parse
        (.pattern (matchVariable "VERSION".toList)
          ("VERSION".toList ++ ' ' :: '=' :: ' ' :: dq :: ("1.2.3".toList ++ [squo]))) =
      ["1.2.3".toList] ∧
    VersionDeclaration.replace "9.10.11".toList
        (.pattern (matchVariable "VERSION".toList)
          ("VERSION".toList ++ ' ' :: '=' :: ' ' :: dq :: ("1.2.3".toList ++ [squo]))) =
      .pattern (matchVariable "VERSION".toList)
        ("VERSION".toList ++ ' ' :: '=' :: ' ' :: dq :: ("9.10.11".toList ++ [squo])) := by
  have hver : VersionShaped "1.2.3".toList :=
    Or.inr ⟨"1".toList, "2".toList, "3".toList, by decide, by decide, by decide,
      by decide, by decide, by decide, by decide⟩
  have h := c10_mismatched_quotes_accepted "VERSION".toList dq squo "1.2.3".toList
    "9.10.11".toList (by decide) (by decide) (by decide) (by decide) hver
  exact ⟨⟨by decide, by decide, by decide, hver⟩, h.1, h.2⟩
